import Mathlib

/-!
Verification of the preform form-state engine (src/src/preform.tsx).

The TypeScript source is shallowly embedded: JavaScript objects used as
string-keyed records become association lists, JavaScript values stored in
the form become the inductive type `JsVal`, validators become Lean
functions returning a settled outcome (resolved value or thrown value),
and every state transition performed through setState becomes a pure
function on the `FormState` structure. React effect scheduling is
modelled sequentially: an operation on the form is one committed state
transition; an in-flight whole-form validation is split into its start
transition (capturing the values snapshot) and its commit transition, so
that interleavings with other operations can be expressed.
-/

namespace Preform

/-- JavaScript runtime values as they occur in form values, validator
    results and thrown values. `err` models an Error instance by its
    message (no claim observes the identity of an Error object); `obj`
    models any other non-primitive value by a reference id, so that
    strict equality on objects is reference identity. Numbers are
    modelled as integers. -/
inductive JsVal where
  | null
  | undef
  | bool (b : Bool)
  | num (n : Int)
  | str (s : String)
  | err (msg : String)
  | obj (id : Nat)
  deriving DecidableEq, Repr

namespace JsVal

/-- JavaScript truthiness of a value. -/
def truthy : JsVal → Bool
  | .null => false
  | .undef => false
  | .bool b => b
  | .num n => n != 0
  | .str s => s ≠ ""
  | .err _ => true
  | .obj _ => true

/-- JavaScript strict equality on the embedded values: structural on
    primitives, reference id on objects. -/
def strictEq : JsVal → JsVal → Bool := fun a b => a == b

/-- The message of the Error produced by the Error constructor applied to
    a value, as in new Error(x): undefined gives an empty message, a
    string is taken verbatim, other values are stringified. -/
def errorCtorMessage : JsVal → String
  | .undef => ""
  | .str s => s
  | .null => "null"
  | .bool b => cond b "true" "false"
  | .num n => toString n
  | .err m => "Error: " ++ m
  | .obj _ => "[object Object]"

/-- The normalization e instanceof Error ? e : new Error(e), used both in
    validateField (line 180) and in the catch branch of the whole-form
    fan-out (line 209). -/
def errFromAny : JsVal → JsVal
  | .err m => .err m
  | v => .err (errorCtorMessage v)

/-- Whether a value is an Error instance carrying a message. -/
def isErrObj : JsVal → Bool
  | .err _ => true
  | _ => false

end JsVal

/-- valueCanUpdateSafely (line 421): typeof val !== "object" || val === null.
    Every primitive (and null and undefined) is safe; Error instances and
    other objects are not. -/
def valueCanUpdateSafely : JsVal → Bool
  | .err _ => false
  | .obj _ => false
  | _ => true

/-- A JavaScript object used as a string-keyed record, embedded as an
    association list in insertion order. -/
abbrev Jmap (α : Type) := List (String × α)

namespace Jmap

/-- Property read m[k], as an Option. -/
def lookup (m : Jmap α) (k : String) : Option α :=
  match m with
  | [] => none
  | (k₁, v) :: rest => if k₁ = k then some v else lookup rest k

/-- The test k in m. -/
def hasKey (m : Jmap α) (k : String) : Bool :=
  match m with
  | [] => false
  | (k₁, _) :: rest => k₁ = k || hasKey rest k

/-- Assignment m[k] = v (also the spread update): an existing key keeps
    its position and gets the new value, a new key is appended. -/
def insert (m : Jmap α) (k : String) (v : α) : Jmap α :=
  match m with
  | [] => [(k, v)]
  | (k₁, v₁) :: rest => if k₁ = k then (k₁, v) :: rest else (k₁, v₁) :: insert rest k v

/-- Property deletion delete m[k]. -/
def erase (m : Jmap α) (k : String) : Jmap α :=
  m.filter (fun p => p.1 ≠ k)

/-- Object.keys m. -/
def keys (m : Jmap α) : List String := m.map Prod.fst

/-- The test !Object.keys(m).length. -/
def isEmpty (m : Jmap α) : Bool := List.isEmpty m

/-- The spread merge of two records, second one winning: every binding of
    m2 is assigned on top of m1 in order. -/
def mergeAll (m1 m2 : Jmap α) : Jmap α :=
  m2.foldl (fun acc p => acc.insert p.1 p.2) m1

theorem lookup_insert_self (m : Jmap α) (k : String) (v : α) :
    (m.insert k v).lookup k = some v := by
  induction m with
  | nil => simp [insert, lookup]
  | cons p rest ih =>
    obtain ⟨k₁, v₁⟩ := p
    by_cases hp : k₁ = k
    · simp [insert, lookup, hp]
    · simp [insert, lookup, hp, ih]

theorem lookup_insert_other (m : Jmap α) (k k' : String) (v : α) (hne : k ≠ k') :
    (m.insert k v).lookup k' = m.lookup k' := by
  induction m with
  | nil => simp [insert, lookup, hne]
  | cons p rest ih =>
    obtain ⟨k₁, v₁⟩ := p
    by_cases hp : k₁ = k
    · cases hp
      simp [insert, lookup, hne]
    · simp only [insert, hp, if_false, lookup]
      by_cases hp' : k₁ = k'
      · simp [hp']
      · simp [hp', ih]

theorem lookup_erase_self (m : Jmap α) (k : String) :
    (m.erase k).lookup k = none := by
  induction m with
  | nil => rfl
  | cons p rest ih =>
    obtain ⟨k₁, v₁⟩ := p
    by_cases hp : k₁ = k
    · cases hp
      simpa [erase, List.filter_cons] using ih
    · simpa [erase, List.filter_cons, lookup, hp] using ih

theorem lookup_erase_other (m : Jmap α) (k k' : String) (hne : k ≠ k') :
    (m.erase k).lookup k' = m.lookup k' := by
  induction m with
  | nil => rfl
  | cons p rest ih =>
    obtain ⟨k₁, v₁⟩ := p
    by_cases hp : k₁ = k
    · cases hp
      simpa [erase, List.filter_cons, lookup, hne] using ih
    · by_cases hp' : k₁ = k'
      · cases hp'
        simp [erase, List.filter_cons, lookup, hp]
      · simpa [erase, List.filter_cons, lookup, hp, hp'] using ih

theorem hasKey_eq_isSome (m : Jmap α) (k : String) :
    m.hasKey k = (m.lookup k).isSome := by
  induction m with
  | nil => simp [hasKey, lookup]
  | cons p rest ih =>
    obtain ⟨k₁, v₁⟩ := p
    by_cases hp : k₁ = k
    · simp [hasKey, lookup, hp]
    · simp [hasKey, lookup, hp, ih]

theorem hasKey_iff_lookup (m : Jmap α) (k : String) :
    m.hasKey k = true ↔ (m.lookup k).isSome := by
  rw [hasKey_eq_isSome]

theorem hasKey_insert_self (m : Jmap α) (k : String) (v : α) :
    (m.insert k v).hasKey k = true := by
  rw [hasKey_eq_isSome, lookup_insert_self]
  rfl

theorem hasKey_insert_other (m : Jmap α) (k k' : String) (v : α) (hne : k ≠ k') :
    (m.insert k v).hasKey k' = m.hasKey k' := by
  rw [hasKey_eq_isSome, hasKey_eq_isSome, lookup_insert_other m k k' v hne]

theorem hasKey_erase (m : Jmap α) (k k' : String) :
    (m.erase k).hasKey k' = (decide (k ≠ k') && m.hasKey k') := by
  by_cases h : k = k'
  · subst h
    rw [hasKey_eq_isSome, lookup_erase_self]
    simp
  · rw [hasKey_eq_isSome, lookup_erase_other m k k' h, ← hasKey_eq_isSome]
    simp [h]

theorem insert_ne_nil (m : Jmap α) (k : String) (v : α) :
    m.insert k v ≠ [] := by
  cases m with
  | nil => simp [insert]
  | cons p rest =>
    obtain ⟨k₁, v₁⟩ := p
    by_cases hp : k₁ = k <;> simp [insert, hp]

theorem isEmpty_insert (m : Jmap α) (k : String) (v : α) :
    (m.insert k v).isEmpty = false := by
  have := insert_ne_nil m k v
  unfold isEmpty
  cases hm : m.insert k v with
  | nil => exact absurd hm this
  | cons p rest => rfl

theorem isEmpty_iff_eq_nil (m : Jmap α) : m.isEmpty = true ↔ m = [] := by
  cases m <;> simp [isEmpty]

end Jmap

/-- The FormState record (lines 39-49 of preform.tsx): values, errors and
    the dirty-field record are string-keyed objects, the six flags are
    booleans. The errors record holds whatever JavaScript value was
    written for the field (the normal paths write Error instances). -/
structure FormState where
  values : Jmap JsVal
  valid : Bool
  invalid : Bool
  loading : Bool
  submitted : Bool
  dirty : Bool
  pristine : Bool
  dirtyFields : Jmap Bool
  errors : Jmap JsVal
  deriving Repr, DecidableEq

/-- The initial state passed to useState in asForm (lines 149-159). -/
def initialFormState : FormState :=
  { values := [], valid := true, invalid := false, loading := false,
    errors := [], dirtyFields := [], dirty := false, submitted := true,
    pristine := true }

/-- The literal state installed by the reset callback (lines 295-310);
    reset replaces the whole state with this record, ignoring the
    previous state. -/
def resetState : FormState :=
  { values := [], valid := true, invalid := false, loading := false,
    errors := [], dirtyFields := [], dirty := false, submitted := true,
    pristine := true }

/-- The reset callback of asForm as a state transition. -/
def resetOp : FormState → FormState := fun _ => resetState

/-- Reading state.values[field] as the validator receives it: an absent
    key reads as undefined. -/
def valueAt (m : Jmap JsVal) (f : String) : JsVal :=
  (m.lookup f).getD JsVal.undef

/-- The field-level pristine flag !state.dirtyFields[field] (line 438):
    an absent key is falsy, so the field is pristine. -/
def fieldPristine (s : FormState) (f : String) : Bool :=
  ! ((s.dirtyFields.lookup f).getD false)

/-- setValue (lines 385-408): writes the value; unless keepPristine is
    set it also clears submitted, marks the form dirty and records the
    field in dirtyFields. -/
def setValueOp (field : String) (value : JsVal) (keepPristine : Bool)
    (s : FormState) : FormState :=
  let base := { s with values := s.values.insert field value }
  if keepPristine then base
  else
    { base with
        submitted := false, dirty := true, pristine := false,
        dirtyFields := s.dirtyFields.insert field true }

/-- setValues (lines 354-383): no-op when the record of fields is empty;
    otherwise merges all the fields into values, and unless keepPristine
    is set clears submitted, marks the form dirty and records every
    written key in dirtyFields. -/
def setValuesOp (fields : Jmap JsVal) (keepPristine : Bool)
    (s : FormState) : FormState :=
  if fields.keys.isEmpty then s
  else
    let base := { s with values := s.values.mergeAll fields }
    if keepPristine then base
    else
      { base with
          submitted := false, dirty := true, pristine := false,
          dirtyFields :=
            fields.keys.foldl (fun df k => df.insert k true) s.dirtyFields }

/-- makeFormPristine (lines 282-293). -/
def makeFormPristineOp (s : FormState) : FormState :=
  { s with submitted := true, dirty := false, pristine := true,
           dirtyFields := [] }

/-- makeFormSubmitted (lines 312-320). -/
def makeFormSubmittedOp (s : FormState) : FormState :=
  { s with submitted := true }

/-- The per-field makePristine of useField (lines 542-556): drops the
    field from dirtyFields and recomputes the aggregate flags from the
    remaining set. -/
def fieldMakePristineOp (field : String) (s : FormState) : FormState :=
  let newDirtyFields := s.dirtyFields.erase field
  let newPristine := newDirtyFields.isEmpty
  { s with pristine := newPristine, dirty := ! newPristine,
           dirtyFields := newDirtyFields }

/-- The unmount cleanup transition of useField (lines 515-539): removes
    the field from values, errors and dirtyFields and recomputes the
    aggregate pristine and dirty flags. -/
def pruneFieldOp (field : String) (s : FormState) : FormState :=
  let newValues := s.values.erase field
  let newErrors := s.errors.erase field
  let newDirtyFields := s.dirtyFields.erase field
  let newPristine := newDirtyFields.isEmpty
  { s with pristine := newPristine, dirty := ! newPristine,
           dirtyFields := newDirtyFields, values := newValues,
           errors := newErrors }

/-- The condition of the seeding effect of useField (lines 494-505):
    seed when the field is not yet a key in values, or when it is, the
    field is pristine, its stored value differs strictly from the
    initial value, and either forceInitialValue is set or both the
    stored value and the initial value can update safely. -/
def seedCondition (s : FormState) (field : String) (initialValue : JsVal)
    (forceInitialValue : Bool) : Bool :=
  ! s.values.hasKey field ||
    (fieldPristine s field
      && ! (valueAt s.values field).strictEq initialValue
      && (forceInitialValue ||
            (valueCanUpdateSafely (valueAt s.values field)
              && valueCanUpdateSafely initialValue)))

/-- The seeding effect of useField (lines 494-508): when the condition
    holds it calls setValue with keepPristine set. -/
def seedOp (field : String) (initialValue : JsVal) (forceInitialValue : Bool)
    (s : FormState) : FormState :=
  if seedCondition s field initialValue forceInitialValue then
    setValueOp field initialValue true s
  else s

/-- The state transition committed by the field-level validate of
    useField (lines 456-491), given the settled outcome of the awaited
    validateField call: on a resolved error the error is written and the
    form marked invalid; on a resolved null the field entry is deleted
    from errors and validity recomputed from the remaining errors; when
    the awaited call rejects, the raw thrown value is written into
    errors and the form marked invalid. -/
def fieldValidateCommit (field : String)
    (res : Except JsVal (Option JsVal)) (s : FormState) : FormState :=
  match res with
  | .ok (some e) =>
      { s with errors := s.errors.insert field e,
               valid := false, invalid := true }
  | .ok none =>
      let newErrors := s.errors.erase field
      let newValid := newErrors.isEmpty
      { s with errors := newErrors, valid := newValid,
               invalid := ! newValid }
  | .error x =>
      { s with errors := s.errors.insert field x,
               valid := false, invalid := true }

/-- The settled outcome of one validator invocation: the value the
    possibly asynchronous computation resolved to, or the value it threw
    or rejected with. -/
inductive VdRes where
  | ok (v : JsVal)
  | thrown (v : JsVal)

/-- A validator function: receives the field value and the whole values
    record and settles to a result. -/
def Validator := JsVal → Jmap JsVal → VdRes

/-- The fieldValidators registry (mutated by the registration effect of
    useField, lines 448-454): an entry is the validator or null. -/
def Registry := Jmap (Option Validator)

/-- Looking a field up in the registry as validateField does (lines
    172-175): an absent entry and a null entry are both "no validator". -/
def lookupValidator (reg : Registry) (field : String) : Option Validator :=
  (Jmap.lookup reg field).bind id

/-- validateField (lines 170-181). The declared signature takes the
    field and a values snapshot, but the implementation binds only the
    field parameter and reads the closed-over state.values for both the
    field value and the second validator argument; the snapshot argument
    supplied by the caller is never read. A missing or null validator
    resolves to null; a falsy validator result resolves to null; a
    truthy result is normalized with errFromAny; a validator that throws
    or rejects makes the returned promise reject with that value. -/
def validateField (reg : Registry) (stateValues : Jmap JsVal)
    (field : String) (snapshot : Jmap JsVal) : Except JsVal (Option JsVal) :=
  let _ := snapshot
  match lookupValidator reg field with
  | none => .ok none
  | some fv =>
      match fv (valueAt stateValues field) stateValues with
      | .thrown x => .error x
      | .ok v => if v.truthy then .ok (some (JsVal.errFromAny v)) else .ok none

/-- One branch of the whole-form fan-out (lines 194-212): the awaited
    validateField call wrapped in try/catch, a caught value being
    normalized with errFromAny. validate passes a spread copy of the
    closed-over state.values as the snapshot argument. The branch is a
    total function: no validator failure escapes it. -/
def fieldResult (reg : Registry) (vals : Jmap JsVal) (field : String) :
    Option JsVal :=
  match validateField reg vals field vals with
  | .ok r => r
  | .error x => some (JsVal.errFromAny x)

/-- The aggregation loop over the settled results (lines 218-226):
    errors[result.key] = result.error for every non-null result, in
    order. -/
def collectErrors (reg : Registry) (vals : Jmap JsVal) (ks : List String) :
    Jmap JsVal :=
  ks.foldl
    (fun es k =>
      match fieldResult reg vals k with
      | some e => es.insert k e
      | none => es)
    []

/-- The hasErrors flag of the aggregation loop. -/
def hasErrorsFlag (reg : Registry) (vals : Jmap JsVal) (ks : List String) :
    Bool :=
  ks.any (fun k => (fieldResult reg vals k).isSome)

/-- The state transition entered at the start of validate (lines
    186-192): optimistic flags, loading set, errors cleared. -/
def validateStart (s : FormState) : FormState :=
  { s with valid := true, invalid := false, loading := true, errors := [] }

/-- The state transition committed when the whole-form fan-in completes
    (lines 228-261), applied to whatever state the store holds at that
    moment. vals is the values record captured when validate started;
    the fan-out ranged over its keys. -/
def validateCommit (reg : Registry) (vals : Jmap JsVal)
    (makePristine makeSubmitted : Bool) (prev : FormState) : FormState :=
  let ks := vals.keys
  let errors := collectErrors reg vals ks
  if hasErrorsFlag reg vals ks then
    { prev with valid := false, invalid := true, loading := false,
                errors := errors }
  else
    let base := { prev with valid := true, invalid := false,
                            loading := false, errors := [] }
    if makePristine then
      { base with pristine := true, dirty := false, dirtyFields := [],
                  submitted := true }
    else if makeSubmitted then { base with submitted := true }
    else base

/-- The whole-form validate run sequentially, with no other operation
    between its start and its commit: the snapshot is the current
    values record and the commit applies to the started state. -/
def validateAllSeq (reg : Registry) (makePristine makeSubmitted : Bool)
    (s : FormState) : FormState :=
  validateCommit reg s.values makePristine makeSubmitted (validateStart s)

/-- The snapshot validate returns to its caller (lines 236-242 and
    262-277): built by spreading the closed-over state, not the state
    the store holds at commit time. -/
def validateReturn (reg : Registry) (makePristine makeSubmitted : Bool)
    (s : FormState) : FormState :=
  let ks := s.values.keys
  let errors := collectErrors reg s.values ks
  if hasErrorsFlag reg s.values ks then
    { s with valid := false, invalid := true, loading := false,
             errors := errors }
  else
    let base := { s with valid := true, invalid := false,
                         loading := false, errors := [] }
    if makePristine then
      { base with pristine := true, dirty := false, dirtyFields := [],
                  submitted := true }
    else if makeSubmitted then { base with submitted := true }
    else base

/-- In the sequential model the snapshot validate returns coincides with
    the state its commit leaves in the store, because the commit
    overwrites every field that the start transition touched. -/
theorem validateReturn_eq_validateAllSeq (reg : Registry)
    (mp ms : Bool) (s : FormState) :
    validateReturn reg mp ms s = validateAllSeq reg mp ms s := by
  unfold validateReturn validateAllSeq validateCommit validateStart
  by_cases h : hasErrorsFlag reg s.values s.values.keys = true <;>
    simp [h]

/-- The full state of one form context: the FormState store, the mutable
    fieldValidators registry, and for every field that currently has a
    mounted useField instance, whether its unmount cleanup is active.
    The cleanup effect of useField (lines 510-540) decides at mount time:
    when the field is already a key in values at the commit in which the
    effect first runs, the registered cleanup is a no-op; otherwise the
    cleanup prunes the field. The seeding setState of the same commit
    has not been applied yet when that decision is made, so a field
    mounting into a fresh form gets an active cleanup. -/
structure World where
  form : FormState
  reg : Registry
  cleanupActive : Jmap Bool

/-- The initial world of a freshly instantiated form context. -/
def initialWorld : World :=
  { form := initialFormState, reg := [], cleanupActive := [] }

/-- Mounting a useField instance (effects at lines 448-454, 494-508 and
    510-540, run in this order within one commit, all observing the
    pre-commit state): records whether the cleanup will be active,
    registers the validator (or null), and applies the seeding
    transition. -/
def mountW (field : String) (initialValue : JsVal)
    (validator : Option Validator) (forceInitialValue : Bool)
    (w : World) : World :=
  { form := seedOp field initialValue forceInitialValue w.form,
    reg := w.reg.insert field validator,
    cleanupActive :=
      w.cleanupActive.insert field (! w.form.values.hasKey field) }

/-- Unmounting a useField instance: the registration effect cleanup
    always deletes the registry entry (line 452); the state cleanup
    prunes the field only when it was registered as active. -/
def unmountW (field : String) (w : World) : World :=
  { form :=
      if (w.cleanupActive.lookup field).getD false then
        pruneFieldOp field w.form
      else w.form,
    reg := w.reg.erase field,
    cleanupActive := w.cleanupActive.erase field }

/-- The context value array built by asForm (lines 410-412), in its
    positional order: state, validatorsRef.current, setState, validate,
    setValue, setValues, makeFormPristine, makeFormSubmitted, reset.
    The two unmodelled React plumbing slots (validatorsRef.current and
    setState) are kept as placeholders so the positions line up with
    the source. -/
structure FormContextValue where
  pos0_state : FormState
  pos1_validators : Unit
  pos2_setState : Unit
  pos3_validate : Bool → Bool → FormState → FormState
  pos4_setValue : String → JsVal → Bool → FormState → FormState
  pos5_setValues : Jmap JsVal → Bool → FormState → FormState
  pos6_makeFormPristine : FormState → FormState
  pos7_makeFormSubmitted : FormState → FormState
  pos8_reset : FormState → FormState

/-- The context value asForm provides, with the sequential embedding of
    each bound operation. -/
def asFormContext (reg : Registry) (s : FormState) : FormContextValue :=
  { pos0_state := s,
    pos1_validators := (),
    pos2_setState := (),
    pos3_validate := fun mp ms => validateAllSeq reg mp ms,
    pos4_setValue := setValueOp,
    pos5_setValues := setValuesOp,
    pos6_makeFormPristine := makeFormPristineOp,
    pos7_makeFormSubmitted := makeFormSubmittedOp,
    pos8_reset := resetOp }

/-- The record useFormApi returns. -/
structure UseFormApiResponse where
  formState : FormState
  validate : Bool → Bool → FormState → FormState
  setValue : String → JsVal → Bool → FormState → FormState
  setValues : Jmap JsVal → Bool → FormState → FormState
  makePristine : FormState → FormState
  reset : FormState → FormState

/-- useFormApi (lines 580-596) destructures the context array as
    [state, , , validate, setValue, setValues, makePristine, reset]:
    eight patterns against a nine-element array, so makePristine binds
    position 6 and reset binds position 7, which is the tuple slot
    holding makeFormSubmitted; the real reset at position 8 is never
    bound. -/
def useFormApi (ctx : FormContextValue) : UseFormApiResponse :=
  { formState := ctx.pos0_state,
    validate := ctx.pos3_validate,
    setValue := ctx.pos4_setValue,
    setValues := ctx.pos5_setValues,
    makePristine := ctx.pos6_makeFormPristine,
    reset := ctx.pos7_makeFormSubmitted }

/-- What one invocation of a wrapped submit handler did: the values the
    callback received when it was invoked, the state the onSubmitError
    hook received when it was invoked, and the final store state. -/
structure SubmitOutcome where
  callbackArg : Option (Jmap JsVal)
  hookArg : Option FormState
  final : FormState

/-- One invocation of the handler produced by asSubmit (lines 322-347)
    or by useSubmit (lines 628-650), which implement the same flow: run
    validate() with its default settings, and on a valid result invoke
    the callback with the returned values and then apply the
    makePristine or makeSubmitted bookkeeping; on an invalid result
    invoke the configured onSubmitError hook, if any, with the returned
    state, and never invoke the callback. hookConfigured tells whether a
    FormSettings provider configured onSubmitError. -/
def runSubmit (reg : Registry) (makePristine makeSubmitted : Bool)
    (hookConfigured : Bool) (s : FormState) : SubmitOutcome :=
  let fs := validateReturn reg false false s
  if fs.valid then
    { callbackArg := some fs.values,
      hookArg := none,
      final :=
        if makePristine then makeFormPristineOp (validateAllSeq reg false false s)
        else if makeSubmitted then makeFormSubmittedOp (validateAllSeq reg false false s)
        else validateAllSeq reg false false s }
  else
    { callbackArg := none,
      hookArg := if hookConfigured then some fs else none,
      final := validateAllSeq reg false false s }

/-- One committed state transition of the public surface. mount is the
    seeding transition of a useField instance; unmount carries the
    activity of its cleanup, decided at mount time (pruning when active,
    a no-op otherwise). A whole-form validation is split into its start
    transition and its commit transition (the commit carrying the
    registry and the values snapshot captured at its start), so that
    operations interleaved with an in-flight validation can be
    expressed; vAll is the two run back to back. fieldCommit is the
    transition committed by the field-level validate with the settled
    outcome of its awaited validateField call. -/
inductive Op where
  | mount (field : String) (initialValue : JsVal) (force : Bool)
  | unmount (field : String) (active : Bool)
  | setVal (field : String) (value : JsVal) (keepPristine : Bool)
  | setVals (fields : Jmap JsVal) (keepPristine : Bool)
  | formPristine
  | formSubmitted
  | fieldMakePristine (field : String)
  | fieldCommit (field : String) (res : Except JsVal (Option JsVal))
  | vStart
  | vCommit (reg : Registry) (vals : Jmap JsVal) (mp ms : Bool)
  | vAll (reg : Registry) (mp ms : Bool)
  | reset

/-- The state transition each operation performs. -/
def applyOp (op : Op) (s : FormState) : FormState :=
  match op with
  | .mount f iv force => seedOp f iv force s
  | .unmount f active => if active then pruneFieldOp f s else s
  | .setVal f v keep => setValueOp f v keep s
  | .setVals fs keep => setValuesOp fs keep s
  | .formPristine => makeFormPristineOp s
  | .formSubmitted => makeFormSubmittedOp s
  | .fieldMakePristine f => fieldMakePristineOp f s
  | .fieldCommit f res => fieldValidateCommit f res s
  | .vStart => validateStart s
  | .vCommit reg vals mp ms => validateCommit reg vals mp ms s
  | .vAll reg mp ms => validateAllSeq reg mp ms s
  | .reset => resetOp s

/-- Running an operation sequence from the initial state of a fresh
    form context. -/
def run (ops : List Op) : FormState :=
  ops.foldl (fun s op => applyOp op s) initialFormState

namespace Jmap

theorem hasKey_insert_eq (m : Jmap α) (f k : String) (v : α) :
    (m.insert f v).hasKey k = (decide (f = k) || m.hasKey k) := by
  by_cases h : f = k
  · subst h
    simp [hasKey_insert_self]
  · simp [hasKey_insert_other m f k v h, h]

theorem hasKey_insert_mono (m : Jmap α) (f k : String) (v : α)
    (h : m.hasKey k = true) : (m.insert f v).hasKey k = true := by
  rw [hasKey_insert_eq]
  simp [h]

theorem hasKey_mergeAll_mono (m2 m1 : Jmap α) (k : String)
    (h : m1.hasKey k = true) : (m1.mergeAll m2).hasKey k = true := by
  induction m2 generalizing m1 with
  | nil => exact h
  | cons p rest ih =>
    exact ih (m1.insert p.1 p.2) (hasKey_insert_mono _ _ _ _ h)

theorem hasKey_eq_mem_keys (m : Jmap α) (k : String) :
    m.hasKey k = true ↔ k ∈ m.keys := by
  induction m with
  | nil => simp [hasKey, keys]
  | cons p rest ih =>
    obtain ⟨k₁, v₁⟩ := p
    by_cases hp : k₁ = k
    · simp [hasKey, keys, hp]
    · have hp' : ¬ k = k₁ := fun h => hp h.symm
      simp [hasKey, keys, hp, hp', ih]

end Jmap

/-- The lookup characterization of the aggregation loop, for any
    accumulator: a key whose branch produced an error reads that error,
    every other key reads whatever the accumulator held. The right side
    depends only on membership of the key in the fan-out key list, not
    on the order of the list: the fan-in is order-independent and keyed
    purely by field identity. -/
theorem collectErrors_go_lookup (reg : Registry) (vals : Jmap JsVal)
    (ks : List String) (es : Jmap JsVal) (k : String) :
    ((ks.foldl
        (fun es k =>
          match fieldResult reg vals k with
          | some e => es.insert k e
          | none => es)
        es).lookup k)
    = if k ∈ ks ∧ (fieldResult reg vals k).isSome then fieldResult reg vals k
      else es.lookup k := by
  induction ks generalizing es with
  | nil => simp
  | cons k' rest ih =>
    simp only [List.foldl_cons]
    rw [ih]
    by_cases hmem : k ∈ rest ∧ (fieldResult reg vals k).isSome = true
    · rw [if_pos hmem, if_pos ⟨List.mem_cons_of_mem _ hmem.1, hmem.2⟩]
    · rw [if_neg hmem]
      by_cases hk : k = k'
      · subst hk
        cases hres : fieldResult reg vals k with
        | some e =>
            rw [if_pos ⟨List.mem_cons_self _ _, rfl⟩]
            exact Jmap.lookup_insert_self es k e
        | none =>
            rw [if_neg (by rintro ⟨-, h⟩; exact absurd h (by simp))]
      · rw [if_neg (by
            rintro ⟨h1, h2⟩
            rcases List.mem_cons.mp h1 with h | h
            · exact hk h
            · exact hmem ⟨h, h2⟩)]
        cases hres : fieldResult reg vals k' with
        | some e => exact Jmap.lookup_insert_other es k' k e (fun h => hk h.symm)
        | none => rfl

/-- The aggregate errors record reads, at every key, exactly the result
    of that key's own fan-out branch when the key was fanned out and its
    branch produced an error, and nothing otherwise. -/
theorem collectErrors_lookup (reg : Registry) (vals : Jmap JsVal)
    (ks : List String) (k : String) :
    (collectErrors reg vals ks).lookup k
    = if k ∈ ks ∧ (fieldResult reg vals k).isSome then fieldResult reg vals k
      else none := by
  unfold collectErrors
  rw [collectErrors_go_lookup]
  rfl

/-- When every branch succeeds the aggregation loop leaves the
    accumulator untouched. -/
theorem collectErrors_go_of_all_none (reg : Registry) (vals : Jmap JsVal)
    (ks : List String) (es : Jmap JsVal)
    (h : ∀ k ∈ ks, fieldResult reg vals k = none) :
    (ks.foldl
        (fun es k =>
          match fieldResult reg vals k with
          | some e => es.insert k e
          | none => es)
        es) = es := by
  induction ks generalizing es with
  | nil => rfl
  | cons k' rest ih =>
    simp only [List.foldl_cons]
    rw [h k' (List.mem_cons_self _ _)]
    exact ih es (fun k hk => h k (List.mem_cons_of_mem _ hk))

/-- hasErrors agrees with emptiness of the aggregate errors record. -/
theorem hasErrorsFlag_eq_not_isEmpty (reg : Registry) (vals : Jmap JsVal)
    (ks : List String) :
    hasErrorsFlag reg vals ks = ! (collectErrors reg vals ks).isEmpty := by
  by_cases h : hasErrorsFlag reg vals ks = true
  · rw [h]
    unfold hasErrorsFlag at h
    rw [List.any_eq_true] at h
    obtain ⟨k, hk, hsome⟩ := h
    have hlook := collectErrors_lookup reg vals ks k
    rw [if_pos ⟨hk, hsome⟩] at hlook
    have : (collectErrors reg vals ks) ≠ [] := by
      intro hc
      rw [hc] at hlook
      simp only [Jmap.lookup] at hlook
      rw [← hlook] at hsome
      simp at hsome
    cases hce : collectErrors reg vals ks with
    | nil => exact absurd hce this
    | cons p rest => simp [Jmap.isEmpty, hce]
  · rw [Bool.not_eq_true] at h
    rw [h]
    unfold hasErrorsFlag at h
    have hall : ∀ k ∈ ks, fieldResult reg vals k = none := by
      intro k hk
      by_contra hc
      have : (fieldResult reg vals k).isSome = true := by
        cases hr : fieldResult reg vals k with
        | none => exact absurd hr hc
        | some e => rfl
      have : ks.any (fun k => (fieldResult reg vals k).isSome) = true :=
        List.any_eq_true.mpr ⟨k, hk, this⟩
      rw [this] at h
      exact Bool.true_eq_false.mp h
    unfold collectErrors
    rw [collectErrors_go_of_all_none reg vals ks [] hall]
    rfl

/-- The flag invariant of the claims: dirty is the negation of pristine,
    and pristine holds exactly when the dirty-field record is empty. -/
def flagsInv (s : FormState) : Prop :=
  s.dirty = ! s.pristine ∧ s.pristine = s.dirtyFields.isEmpty

theorem flagsInv_initial : flagsInv initialFormState := by
  constructor <;> rfl

theorem isEmpty_foldl_insert (ks : List String) (df : Jmap Bool)
    (h : ks ≠ []) :
    (ks.foldl (fun df k => df.insert k true) df).isEmpty = false := by
  induction ks generalizing df with
  | nil => exact absurd rfl h
  | cons k rest ih =>
    simp only [List.foldl_cons]
    cases rest with
    | nil => exact Jmap.isEmpty_insert df k true
    | cons k2 r2 => exact ih (df.insert k true) (by simp)

theorem flagsInv_setValueOp (f : String) (v : JsVal) (keep : Bool)
    (s : FormState) (h : flagsInv s) : flagsInv (setValueOp f v keep s) := by
  obtain ⟨h1, h2⟩ := h
  cases keep with
  | true => exact ⟨h1, h2⟩
  | false =>
      refine ⟨rfl, ?_⟩
      simp [setValueOp, Jmap.isEmpty_insert]

theorem flagsInv_setValuesOp (fs : Jmap JsVal) (keep : Bool)
    (s : FormState) (h : flagsInv s) : flagsInv (setValuesOp fs keep s) := by
  obtain ⟨h1, h2⟩ := h
  unfold setValuesOp
  by_cases he : fs.keys.isEmpty = true
  · simp only [he, if_true]
    exact ⟨h1, h2⟩
  · simp only [he, if_false]
    cases keep with
    | true => exact ⟨h1, h2⟩
    | false =>
        refine ⟨rfl, ?_⟩
        have : fs.keys ≠ [] := by
          intro hc
          rw [hc] at he
          exact he rfl
        simp [isEmpty_foldl_insert fs.keys s.dirtyFields this]

theorem flagsInv_makeFormPristineOp (s : FormState) :
    flagsInv (makeFormPristineOp s) := ⟨rfl, rfl⟩

theorem flagsInv_makeFormSubmittedOp (s : FormState) (h : flagsInv s) :
    flagsInv (makeFormSubmittedOp s) := h

theorem flagsInv_fieldMakePristineOp (f : String) (s : FormState) :
    flagsInv (fieldMakePristineOp f s) := ⟨rfl, rfl⟩

theorem flagsInv_pruneFieldOp (f : String) (s : FormState) :
    flagsInv (pruneFieldOp f s) := ⟨rfl, rfl⟩

theorem flagsInv_seedOp (f : String) (iv : JsVal) (force : Bool)
    (s : FormState) (h : flagsInv s) : flagsInv (seedOp f iv force s) := by
  unfold seedOp
  by_cases hc : seedCondition s f iv force = true
  · simp only [hc, if_true]
    exact flagsInv_setValueOp f iv true s h
  · simp only [hc, if_false]
    exact h

theorem flagsInv_fieldValidateCommit (f : String)
    (res : Except JsVal (Option JsVal)) (s : FormState) (h : flagsInv s) :
    flagsInv (fieldValidateCommit f res s) := by
  obtain ⟨h1, h2⟩ := h
  cases res with
  | error x => exact ⟨h1, h2⟩
  | ok r => cases r with
    | none => exact ⟨h1, h2⟩
    | some e => exact ⟨h1, h2⟩

theorem flagsInv_validateStart (s : FormState) (h : flagsInv s) :
    flagsInv (validateStart s) := h

theorem flagsInv_validateCommit (reg : Registry) (vals : Jmap JsVal)
    (mp ms : Bool) (s : FormState) (h : flagsInv s) :
    flagsInv (validateCommit reg vals mp ms s) := by
  obtain ⟨h1, h2⟩ := h
  unfold validateCommit
  by_cases he : hasErrorsFlag reg vals vals.keys = true
  · simp only [he, if_true]
    exact ⟨h1, h2⟩
  · simp only [he, if_false]
    cases mp with
    | true => exact ⟨rfl, rfl⟩
    | false =>
        cases ms with
        | true => exact ⟨h1, h2⟩
        | false => exact ⟨h1, h2⟩

theorem flagsInv_resetOp (s : FormState) : flagsInv (resetOp s) := ⟨rfl, rfl⟩

theorem flagsInv_applyOp (op : Op) (s : FormState) (h : flagsInv s) :
    flagsInv (applyOp op s) := by
  cases op with
  | mount f iv force => exact flagsInv_seedOp f iv force s h
  | unmount f active =>
      cases active with
      | true => exact flagsInv_pruneFieldOp f s
      | false => exact h
  | setVal f v keep => exact flagsInv_setValueOp f v keep s h
  | setVals fs keep => exact flagsInv_setValuesOp fs keep s h
  | formPristine => exact flagsInv_makeFormPristineOp s
  | formSubmitted => exact flagsInv_makeFormSubmittedOp s h
  | fieldMakePristine f => exact flagsInv_fieldMakePristineOp f s
  | fieldCommit f res => exact flagsInv_fieldValidateCommit f res s h
  | vStart => exact flagsInv_validateStart s h
  | vCommit reg vals mp ms => exact flagsInv_validateCommit reg vals mp ms s h
  | vAll reg mp ms =>
      exact flagsInv_validateCommit reg _ mp ms _ (flagsInv_validateStart s h)
  | reset => exact flagsInv_resetOp s

theorem flagsInv_run_from (ops : List Op) (s : FormState) (h : flagsInv s) :
    flagsInv (ops.foldl (fun s op => applyOp op s) s) := by
  induction ops generalizing s with
  | nil => exact h
  | cons op rest ih =>
      exact ih (applyOp op s) (flagsInv_applyOp op s h)

/-- C9: after every operation of every operation sequence over the
    public surface (mounting and unmounting fields, setValue, setValues,
    the form-level and field-level makePristine, whole-form validation,
    including one whose start and commit have other operations
    interleaved, field-level validation commits and reset), dirty is
    the negation of pristine, and pristine holds exactly when
    dirtyFields is empty. -/
theorem C9_dirty_pristine_invariant (ops : List Op) :
    (run ops).dirty = ! (run ops).pristine
    ∧ (run ops).pristine = (run ops).dirtyFields.isEmpty := by
  have h : flagsInv (run ops) :=
    flagsInv_run_from ops initialFormState flagsInv_initial
  exact h

/-- Whether an operation writes a field value without keepPristine. -/
def isUnkeptSet : Op → Bool
  | .setVal _ _ keep => ! keep
  | .setVals _ keep => ! keep
  | _ => false

/-- C10: a freshly created FormState and the state installed by reset
    both carry submitted = true although no submission ever completed,
    and submitted only ever turns from true to false through a value
    write (setValue or setValues) without keepPristine. -/
theorem C10_submitted_default (op : Op) (s : FormState) :
    initialFormState.submitted = true
    ∧ (resetOp s).submitted = true
    ∧ ((applyOp op s).submitted = false →
        s.submitted = false ∨ isUnkeptSet op = true) := by
  refine ⟨rfl, rfl, ?_⟩
  intro h
  cases op with
  | mount f iv force =>
      left
      unfold applyOp seedOp setValueOp at h
      by_cases hc : seedCondition s f iv force = true <;> simp [hc] at h <;>
        exact h
  | unmount f active =>
      left
      cases active with
      | true => exact h
      | false => exact h
  | setVal f v keep =>
      cases keep with
      | true => exact Or.inl h
      | false => exact Or.inr rfl
  | setVals fs keep =>
      cases keep with
      | true =>
          left
          unfold applyOp setValuesOp at h
          by_cases he : fs.keys.isEmpty = true <;> simp [he] at h <;> exact h
      | false => exact Or.inr rfl
  | formPristine => exact absurd h (by simp [applyOp, makeFormPristineOp])
  | formSubmitted => exact absurd h (by simp [applyOp, makeFormSubmittedOp])
  | fieldMakePristine f => exact Or.inl h
  | fieldCommit f res =>
      left
      cases res with
      | error x => exact h
      | ok r => cases r with
        | none => exact h
        | some e => exact h
  | vStart => exact Or.inl h
  | vCommit reg vals mp ms =>
      left
      unfold applyOp validateCommit at h
      by_cases he : hasErrorsFlag reg vals vals.keys = true
      · simp only [he, if_true] at h
        exact h
      · simp only [he, if_false] at h
        cases mp with
        | true => simp at h
        | false =>
            cases ms with
            | true => simp at h
            | false => exact h
  | vAll reg mp ms =>
      left
      unfold applyOp validateAllSeq validateCommit at h
      by_cases he : hasErrorsFlag reg s.values s.values.keys = true
      · simp only [he, if_true] at h
        exact h
      · simp only [he, if_false] at h
        cases mp with
        | true => simp at h
        | false =>
            cases ms with
            | true => simp at h
            | false => exact h
  | reset => exact absurd h (by simp [applyOp, resetOp, resetState])

/-- Witness for C10 at a concrete input: writing the field x without
    keepPristine makes submitted false, and the characterization applies
    to that operation. -/
theorem C10_submitted_default_witness :
    (applyOp (Op.setVal "x" (JsVal.num 1) false) initialFormState).submitted
        = false
    ∧ (initialFormState.submitted = false
        ∨ isUnkeptSet (Op.setVal "x" (JsVal.num 1) false) = true) :=
  ⟨by decide,
    (C10_submitted_default (Op.setVal "x" (JsVal.num 1) false)
        initialFormState).2.2 (by decide)⟩

/-- Every key of the errors record is a key of the values record. -/
def errorsSubValues (s : FormState) : Prop :=
  ∀ k, s.errors.hasKey k = true → s.values.hasKey k = true

/-- The side condition under which one operation preserves
    errorsSubValues: a whole-form commit must find every key of its
    captured snapshot still present in values (no field of the snapshot
    unmounted while the validation was in flight), and a field-level
    commit that writes an error must target a field present in values;
    every other operation preserves the invariant unconditionally. -/
def opSafeForErrors (op : Op) (s : FormState) : Prop :=
  match op with
  | .vCommit _ vals _ _ => ∀ k, vals.hasKey k = true → s.values.hasKey k = true
  | .fieldCommit f res =>
      match res with
      | .ok none => True
      | _ => s.values.hasKey f = true
  | _ => True

theorem errorsSubValues_initial : errorsSubValues initialFormState := by
  intro k hk
  exact absurd hk (by simp [initialFormState, Jmap.hasKey])

theorem hasKey_collectErrors_mem (reg : Registry) (vals : Jmap JsVal)
    (ks : List String) (k : String)
    (h : (collectErrors reg vals ks).hasKey k = true) : k ∈ ks := by
  rw [Jmap.hasKey_eq_isSome, collectErrors_lookup] at h
  by_cases hc : k ∈ ks ∧ (fieldResult reg vals k).isSome = true
  · exact hc.1
  · rw [if_neg hc] at h
    exact absurd h (by simp)

theorem errorsSubValues_validateCommit (reg : Registry) (vals : Jmap JsVal)
    (mp ms : Bool) (s : FormState)
    (hsafe : ∀ k, vals.hasKey k = true → s.values.hasKey k = true) :
    errorsSubValues (validateCommit reg vals mp ms s) := by
  unfold validateCommit
  by_cases he : hasErrorsFlag reg vals vals.keys = true
  · simp only [he, if_true]
    intro k hk
    have hmem : k ∈ vals.keys := hasKey_collectErrors_mem reg vals _ k hk
    exact hsafe k ((Jmap.hasKey_eq_mem_keys vals k).mpr hmem)
  · simp only [he, if_false]
    cases mp with
    | true =>
        intro k hk
        exact absurd hk (by simp [Jmap.hasKey])
    | false =>
        cases ms with
        | true =>
            intro k hk
            exact absurd hk (by simp [Jmap.hasKey])
        | false =>
            intro k hk
            exact absurd hk (by simp [Jmap.hasKey])

/-- C3 amended, preservation half: every operation whose side condition
    holds preserves the invariant that every errors key is a values key.
    The side condition is trivial for every operation except a
    whole-form commit whose snapshot keys must still be present (no
    unmount of a fanned-out field while the validation was in flight)
    and a field-level commit writing an error, whose field must be
    present in values. -/
theorem C3_errors_sub_values_preserved (op : Op) (s : FormState)
    (hs : errorsSubValues s) (hop : opSafeForErrors op s) :
    errorsSubValues (applyOp op s) := by
  cases op with
  | mount f iv force =>
      unfold applyOp seedOp
      by_cases hc : seedCondition s f iv force = true
      · simp only [hc, if_true]
        intro k hk
        have := hs k hk
        exact Jmap.hasKey_insert_mono _ _ _ _ this
      · simp only [hc, if_false]
        exact hs
  | unmount f active =>
      cases active with
      | true =>
          intro k hk
          simp only [applyOp, if_true, pruneFieldOp] at hk ⊢
          rw [Jmap.hasKey_erase] at hk ⊢
          rw [Bool.and_eq_true] at hk ⊢
          exact ⟨hk.1, hs k hk.2⟩
      | false => exact hs
  | setVal f v keep =>
      intro k hk
      cases keep with
      | true =>
          simp only [applyOp, setValueOp] at hk ⊢
          exact Jmap.hasKey_insert_mono _ _ _ _ (hs k hk)
      | false =>
          simp only [applyOp, setValueOp] at hk ⊢
          exact Jmap.hasKey_insert_mono _ _ _ _ (hs k hk)
  | setVals fs keep =>
      unfold applyOp setValuesOp
      by_cases he : fs.keys.isEmpty = true
      · simp only [he, if_true]
        exact hs
      · simp only [he, if_false]
        cases keep with
        | true =>
            intro k hk
            exact Jmap.hasKey_mergeAll_mono _ _ _ (hs k hk)
        | false =>
            intro k hk
            exact Jmap.hasKey_mergeAll_mono _ _ _ (hs k hk)
  | formPristine => exact hs
  | formSubmitted => exact hs
  | fieldMakePristine f => exact hs
  | fieldCommit f res =>
      cases res with
      | ok r =>
          cases r with
          | none =>
              intro k hk
              simp only [applyOp, fieldValidateCommit] at hk ⊢
              rw [Jmap.hasKey_erase, Bool.and_eq_true] at hk
              exact hs k hk.2
          | some e =>
              intro k hk
              simp only [applyOp, fieldValidateCommit] at hk ⊢
              rw [Jmap.hasKey_insert_eq, Bool.or_eq_true] at hk
              rcases hk with h | h
              · have : f = k := of_decide_eq_true h
                subst this
                exact hop
              · exact hs k h
      | error x =>
          intro k hk
          simp only [applyOp, fieldValidateCommit] at hk ⊢
          rw [Jmap.hasKey_insert_eq, Bool.or_eq_true] at hk
          rcases hk with h | h
          · have : f = k := of_decide_eq_true h
            subst this
            exact hop
          · exact hs k h
  | vStart =>
      intro k hk
      exact absurd hk (by simp [applyOp, validateStart, Jmap.hasKey])
  | vCommit reg vals mp ms =>
      exact errorsSubValues_validateCommit reg vals mp ms s hop
  | vAll reg mp ms =>
      exact errorsSubValues_validateCommit reg s.values mp ms
        (validateStart s) (fun k hk => hk)
  | reset =>
      intro k hk
      exact absurd hk (by simp [applyOp, resetOp, resetState, Jmap.hasKey])

/-- Witness for the preservation theorem at a concrete input: a
    sequential whole-form commit on a one-field form keeps every errors
    key inside values. -/
theorem C3_errors_sub_values_preserved_witness :
    errorsSubValues
      (applyOp (Op.setVal "x" (JsVal.str "a") false) initialFormState) :=
  C3_errors_sub_values_preserved (Op.setVal "x" (JsVal.str "a") false)
    initialFormState errorsSubValues_initial trivial

/-- A registry holding one always-failing validator for the field x. -/
def failRegistry : Registry :=
  [("x", some (fun _ _ => VdRes.ok (JsVal.str "required")))]

/-- C3 counterexample: a field unmounting while a whole-form validation
    is in flight gets its error entry resurrected by the stale commit.
    The trace writes x, starts a whole-form validation (capturing the
    snapshot with x), prunes x by unmounting it, and then the commit of
    the in-flight validation lands: the resulting state holds an error
    for x although x is no longer a key of values, refuting the claimed
    invariant. -/
theorem C3_counterexample :
    ((applyOp
        (Op.vCommit failRegistry [("x", JsVal.str "a")] false false)
        (applyOp (Op.unmount "x" true)
          (applyOp Op.vStart
            (applyOp (Op.setVal "x" (JsVal.str "a") false)
              initialFormState)))).errors.hasKey "x" = true)
    ∧ ((applyOp
        (Op.vCommit failRegistry [("x", JsVal.str "a")] false false)
        (applyOp (Op.unmount "x" true)
          (applyOp Op.vStart
            (applyOp (Op.setVal "x" (JsVal.str "a") false)
              initialFormState)))).values.hasKey "x" = false)
    ∧ ((applyOp (Op.setVal "x" (JsVal.str "a") false)
          initialFormState).values = [("x", JsVal.str "a")]) := by
  refine ⟨?_, ?_, ?_⟩ <;> rfl

/-- C2: a sequential whole-form validation fans out over exactly the
    keys of values at call time: at completion the committed errors
    record reads, at every key, the result of that key's own branch
    when that key was present and its branch failed, and nothing
    otherwise — in particular any permutation of the fan-out key list
    aggregates to the same record, so the aggregate depends only on
    field identity, never on completion order; a field with no
    registered validator is absent from errors; valid equals emptiness
    of errors, invalid its negation, loading is false; when makePristine
    was requested and the result is valid the commit also clears
    dirtyFields and sets pristine, clears dirty and sets submitted, and
    when only makeSubmitted was requested and the result is valid it
    sets submitted. -/
theorem C2_validateAll_aggregation (reg : Registry) (mp ms : Bool)
    (s : FormState) :
    (∀ k, (validateAllSeq reg mp ms s).errors.lookup k
        = if k ∈ s.values.keys ∧ (fieldResult reg s.values k).isSome
          then fieldResult reg s.values k else none)
    ∧ (∀ ks' : List String, List.Perm ks' s.values.keys →
        ∀ k, (collectErrors reg s.values ks').lookup k
          = (collectErrors reg s.values s.values.keys).lookup k)
    ∧ (∀ k, lookupValidator reg k = none →
        (validateAllSeq reg mp ms s).errors.lookup k = none)
    ∧ (validateAllSeq reg mp ms s).valid
        = (validateAllSeq reg mp ms s).errors.isEmpty
    ∧ (validateAllSeq reg mp ms s).invalid
        = ! (validateAllSeq reg mp ms s).valid
    ∧ (validateAllSeq reg mp ms s).loading = false
    ∧ (mp = true → (validateAllSeq reg mp ms s).valid = true →
        (validateAllSeq reg mp ms s).dirtyFields = []
        ∧ (validateAllSeq reg mp ms s).pristine = true
        ∧ (validateAllSeq reg mp ms s).dirty = false
        ∧ (validateAllSeq reg mp ms s).submitted = true)
    ∧ (mp = false → ms = true → (validateAllSeq reg mp ms s).valid = true →
        (validateAllSeq reg mp ms s).submitted = true) := by
  have herrors : ∀ k, (validateAllSeq reg mp ms s).errors.lookup k
      = if k ∈ s.values.keys ∧ (fieldResult reg s.values k).isSome
        then fieldResult reg s.values k else none := by
    intro k
    unfold validateAllSeq validateCommit
    by_cases he : hasErrorsFlag reg s.values s.values.keys = true
    · simp only [he, if_true]
      exact collectErrors_lookup reg s.values s.values.keys k
    · rw [Bool.not_eq_true] at he
      have hall : ∀ k ∈ s.values.keys, fieldResult reg s.values k = none := by
        intro k2 hk2
        by_contra hc
        have hsome : (fieldResult reg s.values k2).isSome = true := by
          cases hr : fieldResult reg s.values k2 with
          | none => exact absurd hr hc
          | some e => rfl
        have : hasErrorsFlag reg s.values s.values.keys = true := by
          unfold hasErrorsFlag
          exact List.any_eq_true.mpr ⟨k2, hk2, hsome⟩
        rw [this] at he
        exact absurd he (by simp)
      have hcond : ¬ (k ∈ s.values.keys ∧ (fieldResult reg s.values k).isSome = true) := by
        rintro ⟨h1, h2⟩
        rw [hall k h1] at h2
        exact absurd h2 (by simp)
      rw [if_neg hcond]
      simp only [he, Bool.false_eq_true, if_false]
      cases mp with
      | true => rfl
      | false => cases ms with
        | true => rfl
        | false => rfl
  refine ⟨herrors, ?_, ?_, ?_, ?_, ?_, ?_, ?_⟩
  · intro ks' hperm k
    rw [collectErrors_lookup, collectErrors_lookup]
    by_cases hmem : k ∈ s.values.keys
    · have : k ∈ ks' := hperm.symm.subset hmem
      by_cases hsome : (fieldResult reg s.values k).isSome = true
      · rw [if_pos ⟨this, hsome⟩, if_pos ⟨hmem, hsome⟩]
      · rw [if_neg (fun hc => hsome hc.2), if_neg (fun hc => hsome hc.2)]
    · have : k ∉ ks' := fun hc => hmem (hperm.subset hc)
      rw [if_neg (fun hc => this hc.1), if_neg (fun hc => hmem hc.1)]
  · intro k hnone
    rw [herrors k]
    have : fieldResult reg s.values k = none := by
      unfold fieldResult validateField
      rw [hnone]
    rw [if_neg (by rintro ⟨-, h2⟩; rw [this] at h2; exact absurd h2 (by simp))]
  · unfold validateAllSeq validateCommit
    by_cases he : hasErrorsFlag reg s.values s.values.keys = true
    · simp only [he, if_true]
      have := hasErrorsFlag_eq_not_isEmpty reg s.values s.values.keys
      rw [he] at this
      cases hie : (collectErrors reg s.values s.values.keys).isEmpty with
      | false => rfl
      | true => rw [hie] at this; exact absurd this.symm (by simp)
    · simp only [he, Bool.false_eq_true, if_false]
      cases mp with
      | true => rfl
      | false => cases ms with
        | true => rfl
        | false => rfl
  · unfold validateAllSeq validateCommit
    by_cases he : hasErrorsFlag reg s.values s.values.keys = true
    · simp only [he, if_true]
      rfl
    · simp only [he, Bool.false_eq_true, if_false]
      cases mp with
      | true => rfl
      | false => cases ms with
        | true => rfl
        | false => rfl
  · unfold validateAllSeq validateCommit
    by_cases he : hasErrorsFlag reg s.values s.values.keys = true
    · simp only [he, if_true]
    · simp only [he, Bool.false_eq_true, if_false]
      cases mp with
      | true => rfl
      | false => cases ms with
        | true => rfl
        | false => rfl
  · intro hmp hvalid
    subst hmp
    unfold validateAllSeq validateCommit at hvalid ⊢
    by_cases he : hasErrorsFlag reg s.values s.values.keys = true
    · rw [if_pos he] at hvalid
      exact absurd hvalid (by simp)
    · simp only [he, Bool.false_eq_true, if_false] at hvalid ⊢
      exact ⟨rfl, rfl, rfl, rfl⟩
  · intro hmp hms hvalid
    subst hmp
    subst hms
    unfold validateAllSeq validateCommit at hvalid ⊢
    by_cases he : hasErrorsFlag reg s.values s.values.keys = true
    · rw [if_pos he] at hvalid
      exact absurd hvalid (by simp)
    · simp only [he, Bool.false_eq_true, if_false] at hvalid ⊢
      rfl

/-- The validator of Scenario A for the field name: fails when the value
    is not a string of length at least 6. -/
def nameValidator : Validator := fun v _ =>
  match v with
  | .str s => if s.length < 6 then VdRes.ok (JsVal.str "Too short") else VdRes.ok JsVal.null
  | _ => VdRes.ok (JsVal.str "Not a string")

/-- The registry of Scenario A: name has a validator, age has none. -/
def scenarioARegistry : Registry := [("name", some nameValidator)]

/-- The state of Scenario A: name holds Bla, age holds 10. -/
def scenarioAState : FormState :=
  { initialFormState with
      values := [("name", JsVal.str "Bla"), ("age", JsVal.num 10)] }

/-- Witness for C2 at Scenario A: whole-form validation leaves
    valid false and loading false, an error for name, no entry for age
    (which has no registered validator), and invalid as the negation of
    valid. -/
theorem C2_validateAll_aggregation_witness :
    (validateAllSeq scenarioARegistry false false scenarioAState).errors.lookup
        "age" = none
    ∧ (validateAllSeq scenarioARegistry false false
        scenarioAState).errors.lookup "name" = some (JsVal.err "Too short")
    ∧ (validateAllSeq scenarioARegistry false false scenarioAState).valid
        = (validateAllSeq scenarioARegistry false false
            scenarioAState).errors.isEmpty
    ∧ (validateAllSeq scenarioARegistry false false scenarioAState).loading
        = false := by
  have h := C2_validateAll_aggregation scenarioARegistry false false
    scenarioAState
  refine ⟨h.2.2.1 "age" (by rfl), ?_, h.2.2.2.1, h.2.2.2.2.2.1⟩
  rw [h.1 "name"]
  rw [if_pos (by refine ⟨?_, ?_⟩ <;> decide)]
  decide

/-- The state after writing the value 1 into the field x of a fresh
    form. -/
def c1State : FormState := setValueOp "x" (JsVal.num 1) false initialFormState

/-- C1: the reset bound operation returned by useFormApi does not
    recreate the initial empty snapshot. The destructuring in useFormApi
    binds eight patterns against the nine-element context array, so the
    name reset receives the element at position 7, makeFormSubmitted:
    applying the bound reset to a state with a value only sets
    submitted, leaving values and dirtyFields intact and pristine false,
    while the real reset element at position 8 does produce the initial
    snapshot. -/
theorem C1_bound_reset_is_makeFormSubmitted :
    (useFormApi (asFormContext [] c1State)).reset c1State
        = makeFormSubmittedOp c1State
    ∧ ((useFormApi (asFormContext [] c1State)).reset c1State).values
        = [("x", JsVal.num 1)]
    ∧ ((useFormApi (asFormContext [] c1State)).reset c1State).dirtyFields
        = [("x", true)]
    ∧ ((useFormApi (asFormContext [] c1State)).reset c1State).pristine
        = false
    ∧ (asFormContext [] c1State).pos8_reset c1State = initialFormState :=
  ⟨rfl, rfl, rfl, rfl, rfl⟩

/-- A state in which the field f exists and is pristine, holding the
    primitive string a. -/
def c4State : FormState :=
  { initialFormState with values := [("f", JsVal.str "a")] }

/-- C4 counterexample: the field f exists, is pristine, its stored value
    differs strictly from the candidate initial value, the existing
    value and the candidate are not both non-primitive (the stored value
    is a primitive string), and forceInitialValue is false — so the
    claim predicts a re-seed — yet the mount effect leaves the stored
    value untouched, because the source requires both values to be
    safely updatable and the candidate is an object. -/
theorem C4_counterexample :
    c4State.values.hasKey "f" = true
    ∧ fieldPristine c4State "f" = true
    ∧ (valueAt c4State.values "f").strictEq (JsVal.obj 0) = false
    ∧ valueCanUpdateSafely (valueAt c4State.values "f") = true
    ∧ (seedOp "f" (JsVal.obj 0) false c4State).values.lookup "f"
        = some (JsVal.str "a") :=
  ⟨rfl, rfl, rfl, rfl, rfl⟩

/-- C4 amended: mounting seeds an absent field with the initial value
    without touching the dirty bookkeeping; an existing pristine field
    whose stored value differs strictly from the initial value is
    re-seeded (again without touching the dirty bookkeeping) when
    forceInitialValue is set or when the stored value and the initial
    value are both primitive; when forceInitialValue is unset and either
    of the two is non-primitive, an existing field is never re-seeded. -/
theorem C4_mount_seeding (s : FormState) (f : String) (iv : JsVal)
    (force : Bool) :
    (s.values.hasKey f = false →
        (seedOp f iv force s).values.lookup f = some iv
        ∧ (seedOp f iv force s).dirtyFields = s.dirtyFields
        ∧ (seedOp f iv force s).pristine = s.pristine
        ∧ (seedOp f iv force s).dirty = s.dirty
        ∧ (seedOp f iv force s).submitted = s.submitted)
    ∧ (s.values.hasKey f = true → fieldPristine s f = true →
        (valueAt s.values f).strictEq iv = false →
        (force = true ∨ (valueCanUpdateSafely (valueAt s.values f) = true
            ∧ valueCanUpdateSafely iv = true)) →
        (seedOp f iv force s).values.lookup f = some iv
        ∧ (seedOp f iv force s).dirtyFields = s.dirtyFields
        ∧ (seedOp f iv force s).pristine = s.pristine
        ∧ (seedOp f iv force s).dirty = s.dirty
        ∧ (seedOp f iv force s).submitted = s.submitted)
    ∧ (s.values.hasKey f = true →
        (valueCanUpdateSafely (valueAt s.values f) = false
          ∨ valueCanUpdateSafely iv = false) →
        force = false →
        seedOp f iv force s = s) := by
  refine ⟨?_, ?_, ?_⟩
  · intro h
    have hc : seedCondition s f iv force = true := by
      unfold seedCondition
      rw [h]
      rfl
    unfold seedOp
    rw [if_pos hc]
    exact ⟨Jmap.lookup_insert_self s.values f iv, rfl, rfl, rfl, rfl⟩
  · intro h hp hne hforce
    have hc : seedCondition s f iv force = true := by
      unfold seedCondition
      rw [h, hp, hne]
      rcases hforce with hf | ⟨ha, hb⟩
      · rw [hf]
        rfl
      · rw [ha, hb]
        simp
    unfold seedOp
    rw [if_pos hc]
    exact ⟨Jmap.lookup_insert_self s.values f iv, rfl, rfl, rfl, rfl⟩
  · intro h hunsafe hforce
    have hc : seedCondition s f iv force = false := by
      unfold seedCondition
      rw [h, hforce]
      rcases hunsafe with ha | hb
      · rw [ha]
        simp
      · rw [hb]
        simp
    unfold seedOp
    rw [hc]
    simp

/-- Witness for C4 at a concrete input: mounting the absent field f
    seeds the value 1 without touching the dirty bookkeeping. -/
theorem C4_mount_seeding_witness :
    (seedOp "f" (JsVal.num 1) false initialFormState).values.lookup "f"
        = some (JsVal.num 1)
    ∧ (seedOp "f" (JsVal.num 1) false initialFormState).dirtyFields
        = initialFormState.dirtyFields
    ∧ (seedOp "f" (JsVal.num 1) false initialFormState).pristine
        = initialFormState.pristine
    ∧ (seedOp "f" (JsVal.num 1) false initialFormState).dirty
        = initialFormState.dirty
    ∧ (seedOp "f" (JsVal.num 1) false initialFormState).submitted
        = initialFormState.submitted :=
  (C4_mount_seeding initialFormState "f" (JsVal.num 1) false).1 (by decide)

/-- A world whose form already holds a value for x, written through
    setValues with keepPristine before any component for x mounted. -/
def c5PreSeededWorld : World :=
  { form := setValuesOp [("x", JsVal.str "v")] true initialFormState,
    reg := [], cleanupActive := [] }

/-- C5 counterexample: x was already a key of values when its useField
    instance mounted (written through the external bulk setter), so the
    unmount cleanup registered by the instance is a no-op: unmounting
    deregisters the validator but leaves the value of x in place,
    refuting the claim that unmounting removes the entries of every
    mounted field. -/
theorem C5_counterexample :
    ((unmountW "x"
        (mountW "x" (JsVal.str "v") none false c5PreSeededWorld)).form.values.hasKey
        "x" = true)
    ∧ ((unmountW "x"
        (mountW "x" (JsVal.str "v") none false c5PreSeededWorld)).form.values.lookup
        "x" = some (JsVal.str "v"))
    ∧ ((unmountW "x"
        (mountW "x" (JsVal.str "v") none false c5PreSeededWorld)).reg.hasKey
        "x" = false) := by
  refine ⟨?_, ?_, ?_⟩ <;> rfl

/-- C5 amended: unmounting always deregisters the validator; when the
    cleanup registered at mount time is active (the field was not
    already a key of values when the instance mounted — the normal
    lifecycle, in which mount seeded the field), unmounting also removes
    the field from values, errors and dirtyFields regardless of
    dirtiness and recomputes pristine and dirty from the remaining dirty
    set; and mounting records exactly that activity. -/
theorem C5_unmount (w : World) (f : String) :
    ((unmountW f w).reg.hasKey f = false)
    ∧ ((w.cleanupActive.lookup f).getD false = true →
        (unmountW f w).form.values.hasKey f = false
        ∧ (unmountW f w).form.errors.hasKey f = false
        ∧ (unmountW f w).form.dirtyFields.hasKey f = false
        ∧ (unmountW f w).form.pristine = (w.form.dirtyFields.erase f).isEmpty
        ∧ (unmountW f w).form.dirty
            = ! (w.form.dirtyFields.erase f).isEmpty)
    ∧ (∀ iv vd force,
        (mountW f iv vd force w).cleanupActive.lookup f
          = some (! w.form.values.hasKey f)) := by
  refine ⟨?_, ?_, ?_⟩
  · show (w.reg.erase f).hasKey f = false
    rw [Jmap.hasKey_erase]
    simp
  · intro hactive
    unfold unmountW
    rw [hactive, if_pos rfl]
    refine ⟨?_, ?_, ?_, rfl, rfl⟩
    · show ((w.form.values.erase f).hasKey f) = false
      rw [Jmap.hasKey_erase]
      simp
    · show ((w.form.errors.erase f).hasKey f) = false
      rw [Jmap.hasKey_erase]
      simp
    · show ((w.form.dirtyFields.erase f).hasKey f) = false
      rw [Jmap.hasKey_erase]
      simp
  · intro iv vd force
    exact Jmap.lookup_insert_self w.cleanupActive f _

/-- Witness for C5 at a concrete input: a field mounted into a fresh
    form has an active cleanup, and unmounting it removes its entries
    and deregisters its validator. -/
theorem C5_unmount_witness :
    ((unmountW "x"
        (mountW "x" (JsVal.str "v") none false initialWorld)).reg.hasKey "x"
      = false)
    ∧ ((unmountW "x"
        (mountW "x" (JsVal.str "v") none false
          initialWorld)).form.values.hasKey "x" = false)
    ∧ ((unmountW "x"
        (mountW "x" (JsVal.str "v") none false
          initialWorld)).form.errors.hasKey "x" = false) := by
  have h := C5_unmount (mountW "x" (JsVal.str "v") none false initialWorld) "x"
  have h2 := h.2.1 (by decide)
  exact ⟨h.1, h2.1, h2.2.1⟩

/-- The claimed behavior of validateField, stated from the words of the
    specification for comparison: invoke the registered validator with
    the field value and the immutable snapshot supplied by the caller. -/
def validateFieldSpec (reg : Registry) (field : String)
    (snapshot : Jmap JsVal) : Except JsVal (Option JsVal) :=
  match lookupValidator reg field with
  | none => .ok none
  | some fv =>
      match fv (valueAt snapshot field) snapshot with
      | .thrown x => .error x
      | .ok v => if v.truthy then .ok (some (JsVal.errFromAny v)) else .ok none

/-- A validator whose outcome depends on the values record it receives
    as its second argument: it fails exactly when that record maps g
    to 1. -/
def snoopValidator : Validator := fun _ vals =>
  if Jmap.lookup vals "g" = some (JsVal.num 1) then VdRes.ok (JsVal.str "snap")
  else VdRes.ok JsVal.null

/-- C6: validateField ignores the snapshot its caller supplies. With the
    coordinator's closed-over values mapping g to 2 and the caller's
    snapshot mapping g to 1, the implementation resolves to null because
    it hands the validator its closed-over values in place of the
    snapshot, while the claimed behavior — the validator receiving the
    caller's snapshot — produces the error snap. The no-validator half
    of the claim does hold: a field with no registered validator
    resolves to null under both. -/
theorem C6_snapshot_ignored :
    validateField [("f", some snoopValidator)]
        [("f", JsVal.str "x"), ("g", JsVal.num 2)] "f"
        [("f", JsVal.str "x"), ("g", JsVal.num 1)]
      = Except.ok none
    ∧ validateFieldSpec [("f", some snoopValidator)] "f"
        [("f", JsVal.str "x"), ("g", JsVal.num 1)]
      = Except.ok (some (JsVal.err "snap"))
    ∧ validateField [("f", some snoopValidator)]
        [("f", JsVal.str "x"), ("g", JsVal.num 2)] "h"
        [("f", JsVal.str "x"), ("g", JsVal.num 1)]
      = Except.ok none
    ∧ validateFieldSpec [("f", some snoopValidator)] "h"
        [("f", JsVal.str "x"), ("g", JsVal.num 1)]
      = Except.ok none :=
  ⟨rfl, rfl, rfl, rfl⟩

theorem errFromAny_isErrObj (v : JsVal) :
    (JsVal.errFromAny v).isErrObj = true := by
  cases v <;> rfl

/-- C7: every validator invocation of the whole-form fan-out that
    resolves to a truthy value or throws is normalized into a
    message-bearing error object stored as the field's entry, and the
    fan-out branch is a total function of the settled outcome, so no
    validator failure escapes the coordinator as a raised failure; a
    plain string m normalizes to an error whose message is m, so a
    rejection with the string bad and a synchronous return of the
    string bad produce the same stored error. -/
theorem C7_failure_normalization (reg : Registry) (vals : Jmap JsVal)
    (k : String) (fv : Validator) (v x : JsVal)
    (hreg : lookupValidator reg k = some fv) :
    (fv (valueAt vals k) vals = VdRes.ok v → v.truthy = true →
        fieldResult reg vals k = some (JsVal.errFromAny v)
        ∧ (JsVal.errFromAny v).isErrObj = true)
    ∧ (fv (valueAt vals k) vals = VdRes.thrown x →
        fieldResult reg vals k = some (JsVal.errFromAny x)
        ∧ (JsVal.errFromAny x).isErrObj = true)
    ∧ (∀ m : String, JsVal.errFromAny (JsVal.str m) = JsVal.err m) := by
  refine ⟨?_, ?_, fun m => rfl⟩
  · intro hv htruthy
    have : fieldResult reg vals k = some (JsVal.errFromAny v) := by
      unfold fieldResult validateField
      simp only [hreg, hv, htruthy]
      simp
    exact ⟨this, errFromAny_isErrObj v⟩
  · intro hx
    have : fieldResult reg vals k = some (JsVal.errFromAny x) := by
      unfold fieldResult validateField
      simp only [hreg, hx]
    exact ⟨this, errFromAny_isErrObj x⟩

/-- A validator that rejects with the plain string bad. -/
def rejectBad : Validator := fun _ _ => VdRes.thrown (JsVal.str "bad")

/-- A validator that synchronously returns the plain string bad. -/
def returnBad : Validator := fun _ _ => VdRes.ok (JsVal.str "bad")

/-- Witness for C7 at Scenario E: a rejection with the string bad and a
    synchronous return of the string bad both store the error object
    with message bad. -/
theorem C7_failure_normalization_witness :
    fieldResult [("f", some rejectBad)] [("f", JsVal.num 1)] "f"
        = some (JsVal.err "bad")
    ∧ fieldResult [("f", some returnBad)] [("f", JsVal.num 1)] "f"
        = some (JsVal.err "bad") := by
  have h1 := (C7_failure_normalization [("f", some rejectBad)]
    [("f", JsVal.num 1)] "f" rejectBad (JsVal.str "bad") (JsVal.str "bad")
    rfl).2.1 rfl
  have h2 := (C7_failure_normalization [("f", some returnBad)]
    [("f", JsVal.num 1)] "f" returnBad (JsVal.str "bad") (JsVal.str "bad")
    rfl).1 rfl rfl
  exact ⟨h1.1, h2.1⟩

theorem validateReturn_values_eq (reg : Registry) (mp ms : Bool)
    (s : FormState) : (validateReturn reg mp ms s).values = s.values := by
  unfold validateReturn
  by_cases he : hasErrorsFlag reg s.values s.values.keys = true
  · simp only [he, if_true]
  · simp only [he, Bool.false_eq_true, if_false]
    cases mp with
    | true => rfl
    | false => cases ms with
      | true => rfl
      | false => rfl

theorem validateReturn_invalid_eq (reg : Registry) (mp ms : Bool)
    (s : FormState) :
    (validateReturn reg mp ms s).invalid = ! (validateReturn reg mp ms s).valid := by
  unfold validateReturn
  by_cases he : hasErrorsFlag reg s.values s.values.keys = true
  · simp only [he, if_true]
    rfl
  · simp only [he, Bool.false_eq_true, if_false]
    cases mp with
    | true => rfl
    | false => cases ms with
      | true => rfl
      | false => rfl

/-- C8: a wrapped submit handler (asSubmit or useSubmit) first runs
    whole-form validation; on a valid result the callback receives
    exactly the form values of the returned state (which are the
    values the form held) and the makePristine or makeSubmitted
    bookkeeping is then applied to the committed state; on an invalid
    result the callback is never invoked and the configured
    onSubmitError hook, if any, receives the invalid returned state,
    while with no hook configured nothing is notified. -/
theorem C8_submit_coordinator (reg : Registry) (mp ms hook : Bool)
    (s : FormState) :
    ((validateReturn reg false false s).valid = true →
        (runSubmit reg mp ms hook s).callbackArg
          = some (validateReturn reg false false s).values
        ∧ (validateReturn reg false false s).values = s.values
        ∧ (runSubmit reg mp ms hook s).hookArg = none
        ∧ (runSubmit reg mp ms hook s).final
          = (if mp then makeFormPristineOp (validateAllSeq reg false false s)
             else if ms then
               makeFormSubmittedOp (validateAllSeq reg false false s)
             else validateAllSeq reg false false s))
    ∧ ((validateReturn reg false false s).valid = false →
        (runSubmit reg mp ms hook s).callbackArg = none
        ∧ (validateReturn reg false false s).invalid = true
        ∧ (hook = true →
            (runSubmit reg mp ms hook s).hookArg
              = some (validateReturn reg false false s))
        ∧ (hook = false → (runSubmit reg mp ms hook s).hookArg = none)) := by
  constructor
  · intro hv
    refine ⟨?_, validateReturn_values_eq reg false false s, ?_, ?_⟩ <;>
      simp [runSubmit, hv]
  · intro hv
    refine ⟨?_, ?_, ?_, ?_⟩
    · simp [runSubmit, hv]
    · rw [validateReturn_invalid_eq reg false false s, hv]
      rfl
    · intro hh
      simp [runSubmit, hv, hh]
    · intro hh
      simp [runSubmit, hv, hh]

/-- A one-field state whose only field always fails validation under
    failRegistry. -/
def c8State : FormState :=
  { initialFormState with values := [("x", JsVal.str "a")] }

/-- Witness for C8 at Scenario D: with the always-failing validator for
    x and a configured hook, a submit invocation never calls the
    callback and hands the invalid returned state to the hook. -/
theorem C8_submit_coordinator_witness :
    (runSubmit failRegistry false true true c8State).callbackArg = none
    ∧ (validateReturn failRegistry false false c8State).invalid = true
    ∧ (runSubmit failRegistry false true true c8State).hookArg
        = some (validateReturn failRegistry false false c8State) := by
  have h := (C8_submit_coordinator failRegistry false true true c8State).2
    (by decide)
  exact ⟨h.1, h.2.1, h.2.2.1 rfl⟩

end Preform
